import Mathlib

/-!
Verification of the M6SS core (Minimal 6TiSCH Synchronization Simulator):
a shallow embedding of the schedule-parameter validation, the TimeInterval
helper, the analytic model (`Model.calculate`) and the Monte-Carlo
simulator (`Simulator.run`), with theorems about the specified behaviour.

Real (double) arithmetic of the source is embedded as exact rational
arithmetic over `ℚ`; `std::chrono::nanoseconds` values are embedded as `ℤ`
(a count of nanoseconds).  Loops whose termination is data-dependent are
embedded with an explicit fuel parameter, `none` standing for
non-termination within the given fuel.
-/

namespace M6SS

/-- Iteration of `prod *= f i` for `i = 1 .. m` (ascending), as in the
per-attempt probability loops of `model.cpp`. -/
def forProd (f : ℕ → ℚ) : ℕ → ℚ
  | 0 => 1
  | m + 1 => forProd f m * f (m + 1)

/-- Iteration of `sum += f i` for `i = lo .. lo+len-1` (ascending), as in the
summation loops of `model.cpp`. -/
def forSumLen (f : ℕ → ℚ) (lo : ℕ) : ℕ → ℚ
  | 0 => 0
  | len + 1 => forSumLen f lo len + f (lo + len)

/-- Constant `SyncParameters::DEFAULT_SLOT_DURATION` (10 ms) in nanoseconds. -/
def slotDuration : ℤ := 10000000

/-- Constant `SyncParameters::DEFAULT_TX_OFFSET` (2120 us) in nanoseconds. -/
def txOffset : ℤ := 2120000

/-- Threshold `std::pow(10, -9)`, the truncation / base-case threshold of the model. -/
def eps9 : ℚ := 1 / 10 ^ 9

/-- Lookup `pSR.at(c)`: lookup of the reception probability of channel `c`.
The C++ `std::map::at` never falls in the default branch for validated
parameters, because the constructor checks that `pSR` covers `chs`. -/
def psrAt (pSR : List (ℤ × ℚ)) (c : ℤ) : ℚ := (pSR.lookup c).getD 0

/-! ## SyncParameters (src/syncparameters.cpp) -/

/-- The stored fields of `M6SS::SyncParameters`. -/
structure SyncParameters where
  chs : List ℤ
  s : ℤ
  pEB : ℚ
  pSR : List (ℤ × ℚ)
  tScan : ℤ
  tSwitch : ℤ
  tEB : ℤ
deriving DecidableEq

/-- The per-channel `pSR` loop of the constructor: for each channel of `chs`,
in order, report a missing entry, then an out-of-range probability. -/
def checkPsr : List ℤ → List (ℤ × ℚ) → Option String
  | [], _ => none
  | c :: rest, pSR =>
    match pSR.lookup c with
    | none => some "pSR does not contain all the channels included in chs."
    | some q =>
      if q < 0 ∨ q > 1 then some "pSR contains an invalid probability."
      else checkPsr rest pSR

/-- The continuation of the constructor after the per-channel `pSR` loop:
the remaining four checks, in source order, and the final field stores. -/
def mkSyncParamsRest (chs : List ℤ) (s : ℤ) (pEB : ℚ) (pSR : List (ℤ × ℚ))
    (tScan tSwitch tEB : ℤ) : Except String SyncParameters :=
  if pSR.length > chs.length then
    .error "pSR contains channels that are not included in chs."
  else if tScan ≤ 0 then
    .error "tScan must be greater than 0."
  else if tSwitch < 0 then
    .error "tSwitch must be greater than or equal to 0."
  else if tEB < 0 then
    .error "tEB cannot be negative."
  else .ok ⟨chs, s, pEB, pSR, tScan, tSwitch, tEB⟩

/-- Constructor `M6SS::SyncParameters::SyncParameters`: the nine validation checks, in
source order, throwing (here: returning `.error`) on the first violated one,
and storing the inputs unchanged on success. -/
def mkSyncParameters (chs : List ℤ) (s : ℤ) (pEB : ℚ) (pSR : List (ℤ × ℚ))
    (tScan tSwitch tEB : ℤ) : Except String SyncParameters :=
  if chs.any (fun c => c < 11 ∨ c > 26) then
    .error "chs can not contain channel numbers less than 11 and greater than 26."
  else if ¬ chs.Nodup then
    .error "chs must contain unique elements."
  else if s ≤ 0 then
    .error "s must be greater than 0."
  else if Nat.gcd chs.length s.toNat ≠ 1 then
    .error "The number of channels and the number of slots (s) must be co-primes."
  else if pEB < 0 ∨ pEB > 1 then
    .error "pEB is not a valid probability."
  else
    match checkPsr chs pSR with
    | some e => .error e
    | none => mkSyncParamsRest chs s pEB pSR tScan tSwitch tEB

/-! ## TimeInterval (timeinterval.cpp) -/

/-- Type `M6SS::TimeInterval`: `none` is the empty interval (both optionals unset);
`some (a, b)` is the interval `[a, b]` in nanoseconds. -/
abbrev TimeInterval := Option (ℤ × ℤ)

namespace TimeInterval

/-- Constructor `TimeInterval::TimeInterval(start, end)`: throws when `start > end`. -/
def make (a b : ℤ) : Except String TimeInterval :=
  if a > b then
    .error "The parameter start must be greater than the parameter end."
  else .ok (some (a, b))

/-- Predicate `TimeInterval::isEmpty`. -/
def isEmpty : TimeInterval → Bool
  | none => true
  | some _ => false

/-- Function `TimeInterval::length`: 0 for the empty interval, else `end - start`. -/
def length : TimeInterval → ℤ
  | none => 0
  | some (a, b) => b - a

/-- Predicate `TimeInterval::isSubsetOf`: false when either side is empty. -/
def isSubsetOf : TimeInterval → TimeInterval → Bool
  | none, _ => false
  | some _, none => false
  | some (a, b), some (c, d) => decide (c ≤ a) && decide (d ≥ b)

/-- Function `TimeInterval::intersection`. -/
def intersection : TimeInterval → TimeInterval → TimeInterval
  | some (a1, b1), some (a2, b2) =>
    if a1 > b2 ∨ b1 < a2 then none
    else some (max a1 a2, min b1 b2)
  | _, _ => none

/-- Accessor `getStart().value()` with a default (only used where the source interval
is known to be non-empty). -/
def startOr (t : TimeInterval) (d : ℤ) : ℤ :=
  match t with
  | none => d
  | some (a, _) => a

/-- The invariant enforced by the C++ constructors: a non-empty interval has
`start ≤ end`. -/
def Valid : TimeInterval → Prop
  | none => True
  | some (a, b) => a ≤ b

instance : DecidablePred Valid := fun t =>
  match t with
  | none => isTrue trivial
  | some (_, _) => inferInstanceAs (Decidable (_ ≤ _))

end TimeInterval

/-! ## Analytic model (src/model.cpp) -/

namespace Model

/-- The container of `M6SS::Model::Results`. -/
structure Results where
  avgSyncTime_ : ℚ
  cdf_ : List ℚ
deriving DecidableEq

/-- Accessor `Model::Results::avgSyncTime`. -/
def Results.avgSyncTime (r : Results) : ℚ := r.avgSyncTime_

/-- Query `Model::Results::cdf`: throws for `steps < 1`, returns 1 beyond the
recorded range, else the stored entry. -/
def Results.cdf (r : Results) (steps : ℕ) : Except String ℚ :=
  if steps < 1 then .error "steps must be greater than zero."
  else if r.cdf_.length ≤ steps then .ok 1
  else .ok (r.cdf_.getD steps 0)

/-- The vector `W` of `Model::calculate`: `W[j] = chs[(j * s) % C]`
(the loop pushes `chs[((i-1) * s) % C]` for `i = 1 .. C`). -/
def W (chs : List ℤ) (s : ℤ) : List ℤ :=
  (List.range chs.length).map (fun j => chs.getD (j * s.toNat % chs.length) 0)

/-- The lambda `X` of `Model::calculate`: `W[(y + k - 1) % C]`. -/
def X (chs : List ℤ) (s : ℤ) (k y : ℕ) : ℤ :=
  (W chs s).getD ((y + k - 1) % chs.length) 0

/-- The lambda `Pstep`: `1/C * Peb * Psr.at(X(k, y))`. -/
def Pstep (chs : List ℤ) (s : ℤ) (pEB : ℚ) (pSR : List (ℤ × ℚ)) (k y : ℕ) : ℚ :=
  1 / (chs.length : ℚ) * pEB * psrAt pSR (X chs s k y)

/-- Case 1 `Psync_cond`: product of misses at steps `1 .. k-1` times the hit
probability at step `k`. -/
def PsyncCond1 (chs : List ℤ) (s : ℤ) (pEB : ℚ) (pSR : List (ℤ × ℚ)) (k y : ℕ) : ℚ :=
  forProd (fun i => 1 - Pstep chs s pEB pSR i y) (k - 1) * Pstep chs s pEB pSR k y

/-- Case 1 `Psync`: average of `Psync_cond` over the offsets `y = 0 .. C-1`. -/
def Psync1 (chs : List ℤ) (s : ℤ) (pEB : ℚ) (pSR : List (ℤ × ℚ)) (k : ℕ) : ℚ :=
  forSumLen (fun y => 1 / (chs.length : ℚ) * PsyncCond1 chs s pEB pSR k y) 0 chs.length

/-- Index `k_f` of Case 2: `((k - 1) / n) * n + 1` with integer division. -/
def kf2 (n k : ℕ) : ℕ := (k - 1) / n * n + 1

/-- Case 2 `Pstep_sp`: the base hit probability multiplied by the survival
factor `(1 - Peb * Psr[X(k,y)]) ^ Nchp` with `Nchp = (k - k_f) / C`. -/
def PstepSp (chs : List ℤ) (s : ℤ) (pEB : ℚ) (pSR : List (ℤ × ℚ)) (n k y : ℕ) : ℚ :=
  (1 - pEB * psrAt pSR (X chs s k y)) ^ ((k - kf2 n k) / chs.length) *
    Pstep chs s pEB pSR k y

/-- Case 2 `Qsp`: `1 -` the sum of `Pstep_sp` over one scan period. -/
def Qsp (chs : List ℤ) (s : ℤ) (pEB : ℚ) (pSR : List (ℤ × ℚ)) (n i y : ℕ) : ℚ :=
  1 - forSumLen (fun k => PstepSp chs s pEB pSR n k y) ((i - 1) * n + 1) n

/-- Case 2 `Psync_cond`. -/
def PsyncCond2 (chs : List ℤ) (s : ℤ) (pEB : ℚ) (pSR : List (ℤ × ℚ)) (n k y : ℕ) : ℚ :=
  forProd (fun i => Qsp chs s pEB pSR n i y) ((k - 1) / n) *
    PstepSp chs s pEB pSR n k y

/-- Case 2 `Psync`. -/
def Psync2 (chs : List ℤ) (s : ℤ) (pEB : ℚ) (pSR : List (ℤ × ℚ)) (n k : ℕ) : ℚ :=
  forSumLen (fun y => 1 / (chs.length : ℚ) * PsyncCond2 chs s pEB pSR n k y) 0 chs.length

/-- The expected-time term `(k - 1) * Tsf + Tsf / 2.0 + Teb` of
`sumOfExpectedValueInCases1and2`. -/
def stepTerm (s tEB : ℤ) (k : ℕ) : ℚ :=
  ((k - 1 : ℕ) : ℚ) * ((slotDuration * s : ℤ) : ℚ) +
    ((slotDuration * s : ℤ) : ℚ) / 2 + (tEB : ℚ)

/-- The truncation loop of `sumOfExpectedValueInCases1and2`: starting at step
`k` with cumulative probability `cum` and accumulated sum `acc`, run while
`cum < 1 - 1e-9`; on exit return the sum and `max_step = k - 1`.  `none`
when the given fuel is exhausted before the loop exits. -/
def truncSum (P T : ℕ → ℚ) : ℕ → ℕ → ℚ → ℚ → Option (ℚ × ℕ)
  | 0, _, _, _ => none
  | fuel + 1, k, cum, acc =>
    if cum < 1 - eps9 then
      truncSum P T fuel (k + 1) (cum + P k) (acc + P k * T k)
    else some (acc, k - 1)

/-- The CDF construction at the end of `Model::calculate`: a do-while that
pushes `cdf[k-1] + Psync(k)` for `k = 1 .. max(maxStep, 1)` onto `[0]`. -/
def buildCdf (P : ℕ → ℚ) (maxStep : ℕ) : List ℚ :=
  (List.range' 1 (max maxStep 1)).foldl
    (fun cdf k => cdf ++ [cdf.getD (k - 1) 0 + P k]) [0]

/-- Case 3 `B(i)`: true when `(i - 1) * n` is not an integer. -/
def B (tScan s : ℤ) (i : ℕ) : Bool :=
  let n : ℚ := (tScan : ℚ) / ((slotDuration * s : ℤ) : ℚ)
  decide (((i : ℚ) - 1) * n ≠ ((⌊((i : ℚ) - 1) * n⌋ : ℤ) : ℚ))

/-- Helper `updatePSync` of Case 3: push when the index is fresh, else add. -/
def updatePSync (arr : List ℚ) (k : ℕ) (p : ℚ) : List ℚ :=
  if arr.length ≤ k then arr ++ [p]
  else arr.set k (arr.getD k 0 + p)

/-- The `recursiveCalc` lambda of Case 3, with explicit fuel and the shared
`pSyncArray` threaded through.  Division by a zero interval length (a NaN in
the C++ doubles) is the total `ℚ` division (value 0); such states are not
reached from validated parameters. -/
def recursiveCalc (chs : List ℤ) (s : ℤ) (pEB : ℚ) (pSR : List (ℤ × ℚ))
    (tScan tEB : ℤ) :
    ℕ → ℚ → ℕ → TimeInterval → ℕ → List ℚ → Option (ℚ × List ℚ)
  | 0, _, _, _, _, _ => none
  | fuel + 1, q, i, I, y, arr =>
    if I.isEmpty ∨ q < eps9 then some (0, arr)
    else
      let C := chs.length
      let Tsf : ℤ := slotDuration * s
      let n : ℚ := (tScan : ℚ) / (Tsf : ℚ)
      let Rl : TimeInterval := some ((i : ℤ) * tScan % Tsf, Tsf)
      let Ll : TimeInterval := some (0, (i : ℤ) * tScan % Tsf)
      let Z : TimeInterval := if B tScan s (i + 1) then TimeInterval.intersection I Ll else I
      let kf : ℕ :=
        if B tScan s i then (⌈((i : ℚ) - 1) * n⌉).toNat
        else (⌊((i : ℚ) - 1) * n⌋).toNat + 1
      let kl : ℕ := (⌈(i : ℚ) * n⌉).toNat
      let Rf : TimeInterval := some (((i : ℤ) - 1) * tScan % Tsf, Tsf)
      let cover : Bool := !(B tScan s i) || TimeInterval.isSubsetOf I Rf
      let PstepFirst : ℚ := if cover then Pstep chs s pEB pSR kf y else 0
      let PsyncFirst : ℚ := q * PstepFirst
      let Istart : ℚ := ((TimeInterval.startOr I 0 : ℤ) : ℚ)
      let Ilen : ℚ := ((TimeInterval.length I : ℤ) : ℚ)
      let Efirst : ℚ :=
        PsyncFirst * (((kf - 1 : ℕ) : ℚ) * (Tsf : ℚ) + Istart + Ilen / 2 + (tEB : ℚ))
      let M : ℕ → ℕ := fun k => if cover then k - kf + 1 else k - kf
      let PstepInter : ℕ → ℚ := fun k =>
        (1 - pEB * psrAt pSR (X chs s k y)) ^ ((M k - 1) / C) * Pstep chs s pEB pSR k y
      let PsyncInter : ℕ → ℚ := fun k => q * PstepInter k
      let Einter : ℕ → ℚ := fun k =>
        PsyncInter k * (((k - 1 : ℕ) : ℚ) * (Tsf : ℚ) + Istart + Ilen / 2 + (tEB : ℚ))
      let Plsc : ℚ :=
        if B tScan s (i + 1) then
          ((TimeInterval.length (TimeInterval.intersection I Ll) : ℤ) : ℚ) / Ilen
        else 1
      let PstepLast : ℚ :=
        (1 - pEB * psrAt pSR (X chs s kl y)) ^ (M (kl - 1) / C) * Pstep chs s pEB pSR kl y
      let PsyncLast : ℚ := q * Plsc * PstepLast
      let Elast : ℚ :=
        if !(Z.isEmpty) then
          PsyncLast * (((kl - 1 : ℕ) : ℚ) * (Tsf : ℚ) +
            ((TimeInterval.startOr Z 0 : ℤ) : ℚ) +
            ((TimeInterval.length Z : ℤ) : ℚ) / 2 + (tEB : ℚ))
        else 0
      let sumInter : ℚ := forSumLen PstepInter (kf + 1) (kl - 1 - kf)
      let Q_C : ℚ := q * Plsc * (1 - (PstepFirst + PstepLast + sumInter))
      let Q_NC : ℚ :=
        q * (((TimeInterval.length (TimeInterval.intersection I Rl) : ℤ) : ℚ) / Ilen) *
          (1 - (PstepFirst + sumInter))
      let arr1 := updatePSync arr kf (1 / (C : ℚ) * PsyncFirst)
      let st := (List.range' (kf + 1) (kl - 1 - kf)).foldl
        (fun (st : ℚ × List ℚ) k =>
          (st.1 + Einter k, updatePSync st.2 k (1 / (C : ℚ) * PsyncInter k)))
        (Efirst, arr1)
      let res2 : ℚ := st.1 + Elast
      let arr3 := updatePSync st.2 kl (1 / (C : ℚ) * PsyncLast)
      match recursiveCalc chs s pEB pSR tScan tEB fuel Q_C (i + 1) Z y arr3 with
      | none => none
      | some (rc, arr4) =>
        if B tScan s (i + 1) then
          match recursiveCalc chs s pEB pSR tScan tEB fuel Q_NC (i + 1)
              (TimeInterval.intersection I Rl) y arr4 with
          | none => none
          | some (rnc, arr5) => some (res2 + rc + rnc, arr5)
        else some (res2 + rc, arr4)

/-- The Case 3 driver: `Tavg += 1/C * recursiveCalc(1, 1, [0, Tsf], y)` for
`y = 0 .. C-1`, with the shared `pSyncArray` (initially `[0]`). -/
def case3 (chs : List ℤ) (s : ℤ) (pEB : ℚ) (pSR : List (ℤ × ℚ))
    (tScan tEB : ℤ) (fuel : ℕ) : Option (ℚ × List ℚ) :=
  (List.range chs.length).foldlM
    (fun (acc : ℚ × List ℚ) y =>
      match recursiveCalc chs s pEB pSR tScan tEB fuel 1 1
          (some (0, slotDuration * s)) y acc.2 with
      | none => none
      | some (r, arr) => some (acc.1 + 1 / (chs.length : ℚ) * r, arr))
    (0, [0])

/-- Function `M6SS::Model::calculate`: the three timing-alignment cases, the truncated
expected-value sum (Cases 1 and 2) or the interval recursion (Case 3), and
the closing CDF prefix-sum loop.  Times are rational nanosecond counts. -/
def calculate (p : SyncParameters) (fuel : ℕ) : Option Results :=
  if p.tScan < slotDuration * p.s then
    match truncSum (Psync1 p.chs p.s p.pEB p.pSR) (stepTerm p.s p.tEB) fuel 1 0 0 with
    | none => none
    | some r => some ⟨r.1, buildCdf (Psync1 p.chs p.s p.pEB p.pSR) r.2⟩
  else if p.tScan % (slotDuration * p.s) = 0 then
    match truncSum (Psync2 p.chs p.s p.pEB p.pSR (p.tScan / (slotDuration * p.s)).toNat)
        (stepTerm p.s p.tEB) fuel 1 0 0 with
    | none => none
    | some r =>
      some ⟨r.1, buildCdf (Psync2 p.chs p.s p.pEB p.pSR
        (p.tScan / (slotDuration * p.s)).toNat) r.2⟩
  else
    match case3 p.chs p.s p.pEB p.pSR p.tScan p.tEB fuel with
    | none => none
    | some ta => some ⟨ta.1, buildCdf (fun k => ta.2.getD k 0) (ta.2.length - 1)⟩

/-- Predicate expressing that `Model::calculate` runs to completion on `p` (for some fuel). -/
def calcTerminates (p : SyncParameters) : Prop :=
  ∃ fuel r, calculate p fuel = some r

end Model

/-! ## Claim-side formulas (the closed forms stated by the specification for
Cases 1 and 2, written with `Finset` sums and products). -/

namespace SpecModel

/-- Spec formula `W[i] = chs[((i-1) * slotsPerFrame) mod C]` (0-based: the
entry at position `j` is `chs[(j * s) mod C]`). -/
def W (chs : List ℤ) (s : ℤ) (j : ℕ) : ℤ :=
  chs.getD (j * s.toNat % chs.length) 0

/-- Spec formula `Pstep(k, y) = (1/C) * pEB * pSR[W[(y + k - 1) mod C]]`. -/
def Pstep (chs : List ℤ) (s : ℤ) (pEB : ℚ) (pSR : List (ℤ × ℚ)) (k y : ℕ) : ℚ :=
  1 / (chs.length : ℚ) * pEB * psrAt pSR (W chs s ((y + k - 1) % chs.length))

/-- Spec formula (Case 1):
`Psync(k) = Σ_y (1/C) * (Π_{i=1}^{k-1} (1 - Pstep(i,y))) * Pstep(k,y)`. -/
def Psync1 (chs : List ℤ) (s : ℤ) (pEB : ℚ) (pSR : List (ℤ × ℚ)) (k : ℕ) : ℚ :=
  ∑ y ∈ Finset.range chs.length,
    1 / (chs.length : ℚ) *
      ((∏ i ∈ Finset.Icc 1 (k - 1), (1 - Pstep chs s pEB pSR i y)) *
        Pstep chs s pEB pSR k y)

/-- Spec formula (Case 2): the base hit probability adjusted by the survival
factor `(1 - pEB * pSR[channel at step k]) ^ Nchp`,
`Nchp = (k - k_f) / C`, `k_f = ((k - 1) / n) * n + 1` (integer division). -/
def PstepSp (chs : List ℤ) (s : ℤ) (pEB : ℚ) (pSR : List (ℤ × ℚ)) (n k y : ℕ) : ℚ :=
  (1 - pEB * psrAt pSR (W chs s ((y + k - 1) % chs.length))) ^
      ((k - ((k - 1) / n * n + 1)) / chs.length) *
    Pstep chs s pEB pSR k y

/-- Spec formula (Case 2): survival of the scan periods `1 .. (k-1)/n`. -/
def Qsp (chs : List ℤ) (s : ℤ) (pEB : ℚ) (pSR : List (ℤ × ℚ)) (n i y : ℕ) : ℚ :=
  1 - ∑ k ∈ Finset.Icc ((i - 1) * n + 1) (i * n), PstepSp chs s pEB pSR n k y

/-- Spec formula (Case 2) for the per-step success probability. -/
def Psync2 (chs : List ℤ) (s : ℤ) (pEB : ℚ) (pSR : List (ℤ × ℚ)) (n k : ℕ) : ℚ :=
  ∑ y ∈ Finset.range chs.length,
    1 / (chs.length : ℚ) *
      ((∏ i ∈ Finset.Icc 1 ((k - 1) / n), Qsp chs s pEB pSR n i y) *
        PstepSp chs s pEB pSR n k y)

end SpecModel

/-! ## Monte-Carlo simulator (simulator part of the sources) -/

namespace Simulator

/-- The container of `M6SS::Simulator::Results`. -/
structure Results where
  avgSyncTime_ : ℚ
  cdf_ : List ℚ
deriving DecidableEq

/-- Accessor `Simulator::Results::avgSyncTime`. -/
def Results.avgSyncTime (r : Results) : ℚ := r.avgSyncTime_

/-- Query `Simulator::Results::cdf`: throws for `steps < 1`, returns 1 at or beyond
`cdf_.size()`, else the stored entry. -/
def Results.cdf (r : Results) (steps : ℕ) : Except String ℚ :=
  if steps < 1 then .error "steps must be greater than zero."
  else if r.cdf_.length ≤ steps then .ok 1
  else .ok (r.cdf_.getD steps 0)

/-- The three thread-local random generators of `Simulator::run`, embedded as
input streams: start times (generator 3, one draw per run), channel picks
(generator 1) and real draws in `[0, 1)` (generator 2). -/
structure RandStreams where
  startTimes : ℕ → ℤ
  chanPicks : ℕ → ℕ
  draws : ℕ → ℚ

/-- The `randomChannel` lambda: a uniformly picked entry of the channel list
(the stream value is reduced modulo the list length), advancing generator 1. -/
def randomChannel (chs : List ℤ) (rs : RandStreams) (c1 : ℕ) : ℤ × ℕ :=
  (chs.getD (rs.chanPicks c1 % chs.length) 0, c1 + 1)

/-- Value `counter.rbegin()->first`: the largest recorded step. -/
def listMax : List ℤ → ℤ
  | [] => 0
  | h :: t => t.foldl max h

/-- The CDF construction of `Simulator::run`: a vector of
`counter.rbegin()->first + 1` entries, entry 0 left at 0, entry `i ≥ 1` the
running sum of the per-step counters divided by `numRuns`. -/
def simBuildCdf (steps : List ℤ) (numRuns : ℤ) : List ℚ :=
  ((List.range' 1 (listMax steps).toNat).foldl
    (fun (st : List ℚ × ℤ) (i : ℕ) =>
      let sum := st.2 + steps.count (i : ℤ)
      (st.1 ++ [(sum : ℚ) / (numRuns : ℚ)], sum))
    ([0], 0)).1

/-- The inner do-while of `Simulator::run` that advances the channel
selections up to the scan period covering `txTime`.  State: last selected
channel, last selection time, next selection time, generator-1 counter.
Returns the scanned channel, the switch flag and the updated state. -/
def selectLoop (chs : List ℤ) (tScan tSwitch : ℤ) (rs : RandStreams) (txTime : ℤ) :
    ℕ → ℤ → ℤ → ℕ → Option (ℤ × Bool × ℤ × ℤ × ℕ)
  | 0, _, _, _ => none
  | fuel + 1, lastSel, nextSelTime, c1 =>
    let pick := randomChannel chs rs c1
    let flag : Bool := pick.1 != lastSel
    let lastSelTime' := nextSelTime
    let nextSel' := nextSelTime + (if flag then tSwitch + tScan else tScan)
    if nextSel' ≤ txTime then selectLoop chs tScan tSwitch rs txTime fuel pick.1 nextSel' pick.2
    else some (pick.1, flag, lastSelTime', nextSel', pick.2)

/-- The outer while-true loop of one simulated synchronization attempt: one
iteration per minimal cell from `asn` on, until an EB is received.  Returns
the transmission time of the received EB and the generator counters. -/
def trialLoop (p : SyncParameters) (rs : RandStreams) :
    ℕ → ℤ → ℤ → Bool → ℤ → ℤ → ℕ → ℕ → Option (ℤ × ℕ × ℕ)
  | 0, _, _, _, _, _, _, _ => none
  | fuel + 1, asn, lastSel, flag, lastSelTime, nextSelTime, c1, c2 =>
    let txTime := asn * slotDuration + txOffset
    let minimalCellChannel := p.chs.getD (asn % (p.chs.length : ℤ)).toNat 0
    let sel : Option (ℤ × Bool × ℤ × ℤ × ℕ) :=
      if 1 < p.chs.length ∧ nextSelTime ≤ txTime then
        selectLoop p.chs p.tScan p.tSwitch rs txTime (fuel + 1) lastSel nextSelTime c1
      else some (lastSel, flag, lastSelTime, nextSelTime, c1)
    match sel with
    | none => none
    | some (scanned, flag2, lastSelTime2, nextSelTime2, c12) =>
      if !flag2 ∨ lastSelTime2 + p.tSwitch ≤ txTime then
        if minimalCellChannel = scanned then
          if rs.draws c2 < p.pEB * psrAt p.pSR scanned then some (txTime, c12, c2 + 1)
          else
            trialLoop p rs fuel (asn + p.s) scanned flag2 lastSelTime2 nextSelTime2 c12
              (c2 + 1)
        else trialLoop p rs fuel (asn + p.s) scanned flag2 lastSelTime2 nextSelTime2 c12 c2
      else trialLoop p rs fuel (asn + p.s) scanned flag2 lastSelTime2 nextSelTime2 c12 c2

/-- One run of the simulated synchronization procedure: random scan start
time within the first channel rotation, first aligned minimal cell, initial
random channel, then `trialLoop`.  Returns the EB transmission time, the scan
start time, and the updated generator counters. -/
def runTrial (p : SyncParameters) (rs : RandStreams) (runIdx fuel c1 c2 : ℕ) :
    Option (ℤ × ℤ × ℕ × ℕ) :=
  let scanStart := rs.startTimes runIdx
  let scanStartASN := scanStart / slotDuration
  let asn0 :=
    if scanStartASN % p.s = 0 ∧ scanStart ≤ scanStartASN * slotDuration + txOffset
    then scanStartASN
    else scanStartASN + p.s - scanStartASN % p.s
  let pick := randomChannel p.chs rs c1
  match trialLoop p rs fuel asn0 pick.1 true scanStart (scanStart + p.tSwitch + p.tScan)
      pick.2 c2 with
  | none => none
  | some (txTime, c13, c23) => some (txTime, scanStart, c13, c23)

/-- The per-run loop of `Simulator::run`: accumulates the average elapsed
time and the list of recorded steps (`ceil((txTime - scanStartTime) / Tsf)`). -/
def runLoop (p : SyncParameters) (rs : RandStreams) (fuel : ℕ) (numRuns : ℤ) :
    List ℕ → ℚ → List ℤ → ℕ → ℕ → Option (ℚ × List ℤ)
  | [], avg, steps, _, _ => some (avg, steps)
  | runIdx :: rest, avg, steps, c1, c2 =>
    match runTrial p rs runIdx fuel c1 c2 with
    | none => none
    | some (txTime, scanStart, c1x, c2x) =>
      runLoop p rs fuel numRuns rest
        (avg + ((txTime - scanStart + p.tEB : ℤ) : ℚ) / (numRuns : ℚ))
        (steps ++ [⌈((txTime - scanStart : ℤ) : ℚ) / ((slotDuration * p.s : ℤ) : ℚ)⌉])
        c1x c2x

/-- Function `M6SS::Simulator::run`: the `numRuns` guard throws first; afterwards the
runs are simulated (`.ok none` when the fuel is exhausted) and the results
are assembled from the per-run statistics. -/
def run (p : SyncParameters) (numRuns : ℤ) (rs : RandStreams) (fuel : ℕ) :
    Except String (Option Results) :=
  if numRuns ≤ 0 then .error "The parameter numRuns must be greater than 0"
  else
    .ok ((runLoop p rs fuel numRuns (List.range numRuns.toNat) 0 [] 0 0).map
      (fun res => ⟨res.1, simBuildCdf res.2 numRuns⟩))

end Simulator

/-! ## Concrete parameter sets used by the witnesses -/

/-- A valid Case-1 parameter set: one channel, certain transmission and
reception, scan period half a slotframe. -/
def wParamsCase1 : SyncParameters := ⟨[11], 1, 1, [(11, 1)], 5000000, 0, 0⟩

/-- A valid Case-2 parameter set: as `wParamsCase1` but with the scan period
exactly one slotframe (`n = 1`). -/
def wParamsCase2 : SyncParameters := ⟨[11], 1, 1, [(11, 1)], 10000000, 0, 0⟩

/-- A valid parameter set with `pEB = 0`: no beacon is ever sent. -/
def zParams : SyncParameters := ⟨[11], 1, 0, [(11, 1)], 5000000, 0, 0⟩

/-- A concrete set of random input streams for the simulator witnesses. -/
def rs0 : Simulator.RandStreams := ⟨fun _ => 0, fun _ => 0, fun _ => 1⟩

end M6SS

namespace M6SS

/-! ## Basic lemmas about the loop combinators and list accesses -/

theorem forProd_eq_prod (f : ℕ → ℚ) : ∀ m, forProd f m = ∏ i ∈ Finset.Icc 1 m, f i
  | 0 => by simp [forProd, Finset.Icc_eq_empty (by omega : ¬ (1 : ℕ) ≤ 0)]
  | m + 1 => by
    rw [forProd, forProd_eq_prod f m,
      Finset.prod_Icc_succ_top (Nat.succ_le_succ (Nat.zero_le m))]

theorem forSumLen_eq_sum (f : ℕ → ℚ) (lo : ℕ) :
    ∀ len, forSumLen f lo len = ∑ i ∈ Finset.range len, f (lo + i)
  | 0 => by simp [forSumLen]
  | len + 1 => by
    rw [forSumLen, forSumLen_eq_sum f lo len, Finset.sum_range_succ]

theorem forSumLen_eq_sum_Icc (f : ℕ → ℚ) (lo len : ℕ) (hlo : 1 ≤ lo) :
    forSumLen f lo len = ∑ k ∈ Finset.Icc lo (lo + len - 1), f k := by
  rw [forSumLen_eq_sum, ← Nat.Ico_succ_right, Finset.sum_Ico_eq_sum_range]
  have h : lo + len - 1 + 1 - lo = len := by omega
  rw [h]

theorem getD_map_range (f : ℕ → ℚ) (n j : ℕ) (d : ℚ) (h : j < n) :
    ((List.range n).map f).getD j d = f j := by
  rw [List.getD_eq_getElem?_getD, List.getElem?_map, List.getElem?_range h]
  rfl

theorem getD_map_range_int (f : ℕ → ℤ) (n j : ℕ) (d : ℤ) (h : j < n) :
    ((List.range n).map f).getD j d = f j := by
  rw [List.getD_eq_getElem?_getD, List.getElem?_map, List.getElem?_range h]
  rfl

/-! ## Bridges between the loop-based model code and the closed spec formulas -/

theorem X_eq_specW (chs : List ℤ) (s : ℤ) (k y : ℕ) :
    Model.X chs s k y = SpecModel.W chs s ((y + k - 1) % chs.length) := by
  unfold Model.X Model.W SpecModel.W
  rcases Nat.eq_zero_or_pos chs.length with h | h
  · rcases List.length_eq_zero.mp h with rfl
    simp
  · exact getD_map_range_int _ _ _ _ (Nat.mod_lt _ h)

theorem Pstep_eq_spec (chs : List ℤ) (s : ℤ) (pEB : ℚ) (pSR : List (ℤ × ℚ)) (k y : ℕ) :
    Model.Pstep chs s pEB pSR k y = SpecModel.Pstep chs s pEB pSR k y := by
  unfold Model.Pstep SpecModel.Pstep
  rw [X_eq_specW]

theorem Psync1_eq_spec (chs : List ℤ) (s : ℤ) (pEB : ℚ) (pSR : List (ℤ × ℚ)) (k : ℕ) :
    Model.Psync1 chs s pEB pSR k = SpecModel.Psync1 chs s pEB pSR k := by
  unfold Model.Psync1 SpecModel.Psync1 Model.PsyncCond1
  rw [forSumLen_eq_sum]
  refine Finset.sum_congr rfl (fun y _ => ?_)
  rw [Nat.zero_add, forProd_eq_prod]
  simp only [Pstep_eq_spec]

theorem PstepSp_eq_spec (chs : List ℤ) (s : ℤ) (pEB : ℚ) (pSR : List (ℤ × ℚ)) (n k y : ℕ) :
    Model.PstepSp chs s pEB pSR n k y = SpecModel.PstepSp chs s pEB pSR n k y := by
  unfold Model.PstepSp SpecModel.PstepSp Model.kf2
  rw [X_eq_specW, Pstep_eq_spec]

theorem Qsp_eq_spec (chs : List ℤ) (s : ℤ) (pEB : ℚ) (pSR : List (ℤ × ℚ)) (n i y : ℕ)
    (hi : 1 ≤ i) :
    Model.Qsp chs s pEB pSR n i y = SpecModel.Qsp chs s pEB pSR n i y := by
  unfold Model.Qsp SpecModel.Qsp
  rw [forSumLen_eq_sum_Icc _ _ _ (by omega)]
  have harg : (i - 1) * n + 1 + n - 1 = i * n := by
    obtain ⟨j, rfl⟩ := Nat.exists_eq_add_of_le hi
    have h1 : 1 + j - 1 = j := by omega
    rw [h1]
    have h2 : j * n + 1 + n - 1 = j * n + n := by omega
    rw [h2]
    ring
  rw [harg]
  refine congrArg _ (Finset.sum_congr rfl (fun k _ => ?_))
  rw [PstepSp_eq_spec]

theorem Psync2_eq_spec (chs : List ℤ) (s : ℤ) (pEB : ℚ) (pSR : List (ℤ × ℚ)) (n k : ℕ) :
    Model.Psync2 chs s pEB pSR n k = SpecModel.Psync2 chs s pEB pSR n k := by
  unfold Model.Psync2 SpecModel.Psync2 Model.PsyncCond2
  rw [forSumLen_eq_sum]
  refine Finset.sum_congr rfl (fun y _ => ?_)
  rw [Nat.zero_add, forProd_eq_prod, PstepSp_eq_spec]
  refine congrArg _ (congrArg (· * _) (Finset.prod_congr rfl (fun i hi => ?_)))
  exact Qsp_eq_spec _ _ _ _ _ _ _ (Finset.mem_Icc.mp hi).1

/-! ## The truncation loop of `sumOfExpectedValueInCases1and2` -/

theorem truncSum_some_spec (P T : ℕ → ℚ) :
    ∀ (fuel k : ℕ) (cum acc A : ℚ) (K : ℕ),
    1 ≤ k →
    cum = ∑ j ∈ Finset.Icc 1 (k - 1), P j →
    acc = ∑ j ∈ Finset.Icc 1 (k - 1), P j * T j →
    (∀ m, m < k - 1 → ∑ j ∈ Finset.Icc 1 m, P j < 1 - eps9) →
    Model.truncSum P T fuel k cum acc = some (A, K) →
    A = ∑ j ∈ Finset.Icc 1 K, P j * T j ∧
      k - 1 ≤ K ∧
      (∀ m, m < K → ∑ j ∈ Finset.Icc 1 m, P j < 1 - eps9) ∧
      1 - eps9 ≤ ∑ j ∈ Finset.Icc 1 K, P j := by
  intro fuel
  induction fuel with
  | zero => intro k cum acc A K _ _ _ _ h; exact absurd h (by simp [Model.truncSum])
  | succ fuel ih =>
    intro k cum acc A K hk hcum hacc hmin h
    rw [Model.truncSum] at h
    by_cases hc : cum < 1 - eps9
    · rw [if_pos hc] at h
      obtain ⟨m, rfl⟩ := Nat.exists_eq_add_of_le hk
      have hsucc : 1 + m + 1 - 1 = (1 + m - 1) + 1 := by omega
      have hcum2 : cum + P (1 + m) = ∑ j ∈ Finset.Icc 1 (1 + m + 1 - 1), P j := by
        rw [hsucc, Finset.sum_Icc_succ_top (by omega)]
        have hm : 1 + m - 1 + 1 = 1 + m := by omega
        rw [hcum, hm]
      have hacc2 : acc + P (1 + m) * T (1 + m) =
          ∑ j ∈ Finset.Icc 1 (1 + m + 1 - 1), P j * T j := by
        rw [hsucc, Finset.sum_Icc_succ_top (by omega)]
        have hm : 1 + m - 1 + 1 = 1 + m := by omega
        rw [hacc, hm]
      have hmin2 : ∀ m2, m2 < 1 + m + 1 - 1 → ∑ j ∈ Finset.Icc 1 m2, P j < 1 - eps9 := by
        intro m2 hm2
        rcases Nat.lt_or_ge m2 (1 + m - 1) with h2 | h2
        · exact hmin m2 h2
        · have : m2 = 1 + m - 1 := by omega
          rw [this, ← hcum]
          exact hc
      obtain ⟨hA, hK, hmin3, hth⟩ := ih (1 + m + 1) _ _ A K (by omega) hcum2 hacc2 hmin2 h
      exact ⟨hA, by omega, hmin3, hth⟩
    · rw [if_neg hc] at h
      obtain ⟨rfl, rfl⟩ : acc = A ∧ k - 1 = K := by
        have := Option.some.inj h
        exact ⟨congrArg Prod.fst this, congrArg Prod.snd this⟩
      refine ⟨hacc, le_refl _, hmin, ?_⟩
      rw [← hcum]
      exact le_of_not_lt hc

theorem truncSum_none_below (P T : ℕ → ℚ) :
    ∀ (fuel k : ℕ) (cum acc : ℚ),
    1 ≤ k →
    cum = ∑ j ∈ Finset.Icc 1 (k - 1), P j →
    Model.truncSum P T fuel k cum acc = none →
    ∀ t, t < fuel → ∑ j ∈ Finset.Icc 1 (k - 1 + t), P j < 1 - eps9 := by
  intro fuel
  induction fuel with
  | zero => intro k cum acc _ _ _ t ht; omega
  | succ fuel ih =>
    intro k cum acc hk hcum h t ht
    rw [Model.truncSum] at h
    by_cases hc : cum < 1 - eps9
    · rw [if_pos hc] at h
      cases t with
      | zero => rw [Nat.add_zero, ← hcum]; exact hc
      | succ t =>
        have hcum2 : cum + P k = ∑ j ∈ Finset.Icc 1 (k + 1 - 1), P j := by
          have hs : k + 1 - 1 = (k - 1) + 1 := by omega
          rw [hs, Finset.sum_Icc_succ_top (by omega)]
          have hm : k - 1 + 1 = k := by omega
          rw [hcum, hm]
        have := ih (k + 1) _ _ (by omega) hcum2 h t (by omega)
        have harg : k + 1 - 1 + t = k - 1 + (t + 1) := by omega
        rwa [harg] at this
    · rw [if_neg hc] at h
      exact absurd h (by simp)

theorem truncSum_stuck (P T : ℕ → ℚ)
    (hall : ∀ m, ∑ j ∈ Finset.Icc 1 m, P j < 1 - eps9) :
    ∀ (fuel k : ℕ) (cum acc : ℚ),
    1 ≤ k →
    cum = ∑ j ∈ Finset.Icc 1 (k - 1), P j →
    Model.truncSum P T fuel k cum acc = none := by
  intro fuel
  induction fuel with
  | zero => intro k cum acc _ _; rfl
  | succ fuel ih =>
    intro k cum acc hk hcum
    rw [Model.truncSum, if_pos (hcum ▸ hall (k - 1))]
    refine ih (k + 1) _ _ (by omega) ?_
    have hs : k + 1 - 1 = (k - 1) + 1 := by omega
    rw [hs, Finset.sum_Icc_succ_top (by omega)]
    have hm : k - 1 + 1 = k := by omega
    rw [hcum, hm]

/-! ## The CDF prefix-sum construction of `Model::calculate` -/

theorem buildCdf_go (P : ℕ → ℚ) :
    ∀ (t k0 : ℕ), 1 ≤ k0 →
    (List.range' k0 t).foldl (fun cdf k => cdf ++ [cdf.getD (k - 1) 0 + P k])
      ((List.range k0).map (fun j => ∑ i ∈ Finset.Icc 1 j, P i)) =
    (List.range (k0 + t)).map (fun j => ∑ i ∈ Finset.Icc 1 j, P i) := by
  intro t
  induction t with
  | zero => intro k0 _; rfl
  | succ t ih =>
    intro k0 hk0
    rw [List.range'_succ, List.foldl_cons]
    have hget : ((List.range k0).map (fun j => ∑ i ∈ Finset.Icc 1 j, P i)).getD (k0 - 1) 0 =
        ∑ i ∈ Finset.Icc 1 (k0 - 1), P i :=
      getD_map_range _ _ _ _ (by omega)
    have hstep : (∑ i ∈ Finset.Icc 1 (k0 - 1), P i) + P k0 = ∑ i ∈ Finset.Icc 1 k0, P i := by
      obtain ⟨m, rfl⟩ := Nat.exists_eq_add_of_le hk0
      have hm : 1 + m - 1 = m := by omega
      have hm2 : 1 + m = m + 1 := by omega
      rw [hm, hm2, Finset.sum_Icc_succ_top (by omega)]
    have happ : (List.range k0).map (fun j => ∑ i ∈ Finset.Icc 1 j, P i) ++
        [∑ i ∈ Finset.Icc 1 k0, P i] =
        (List.range (k0 + 1)).map (fun j => ∑ i ∈ Finset.Icc 1 j, P i) := by
      rw [List.range_succ, List.map_append, List.map_singleton]
    rw [hget, hstep, happ, ih (k0 + 1) (by omega)]
    have harg : k0 + 1 + t = k0 + (t + 1) := by omega
    rw [harg]

theorem buildCdf_eq (P : ℕ → ℚ) (maxStep : ℕ) :
    Model.buildCdf P maxStep =
      (List.range (max maxStep 1 + 1)).map (fun j => ∑ i ∈ Finset.Icc 1 j, P i) := by
  have h0 : ([0] : List ℚ) = (List.range 1).map (fun j => ∑ i ∈ Finset.Icc 1 j, P i) := by
    have h00 : (∑ i ∈ Finset.Icc 1 0, P i) = 0 := by
      rw [Finset.Icc_eq_empty (by omega : ¬ (1 : ℕ) ≤ 0), Finset.sum_empty]
    rw [show List.range 1 = [0] from rfl, List.map_singleton, h00]
  rw [Model.buildCdf, h0, buildCdf_go P (max maxStep 1) 1 (le_refl 1)]
  have harg : 1 + max maxStep 1 = max maxStep 1 + 1 := by omega
  rw [harg]

theorem buildCdf_length (P : ℕ → ℚ) (maxStep : ℕ) :
    (Model.buildCdf P maxStep).length = max maxStep 1 + 1 := by
  rw [buildCdf_eq]
  simp

theorem buildCdf_getD (P : ℕ → ℚ) (maxStep j : ℕ) (h : j ≤ max maxStep 1) :
    (Model.buildCdf P maxStep).getD j 0 = ∑ i ∈ Finset.Icc 1 j, P i := by
  rw [buildCdf_eq]
  exact getD_map_range _ _ _ _ (by omega)

/-- C1: with `tScan < Tsf` (Case 1), `Model::calculate` sets the average
synchronization time to `Σ_k Psync(k) * ((k-1)*Tsf + Tsf/2 + tEB)` with
`Psync(k) = Σ_y (1/C) (Π_{i<k} (1 - Pstep(i,y))) Pstep(k,y)` and
`Pstep(k,y) = (1/C) pEB pSR[W[(y+k-1) mod C]]`, `W[j] = chs[(j*s) mod C]`;
the sum is truncated at the first `K` whose cumulative probability reaches
`1 - 1e-9`, and the CDF records the per-step probabilities (as prefix sums). -/
theorem calculate_case1_spec (p : SyncParameters) (fuel : ℕ) (r : Model.Results)
    (hcase : p.tScan < slotDuration * p.s)
    (hrun : Model.calculate p fuel = some r) :
    ∃ K, 1 ≤ K ∧ r.cdf_.length = K + 1 ∧
      r.avgSyncTime_ =
        ∑ k ∈ Finset.Icc 1 K, SpecModel.Psync1 p.chs p.s p.pEB p.pSR k *
          (((k - 1 : ℕ) : ℚ) * ((slotDuration * p.s : ℤ) : ℚ) +
            ((slotDuration * p.s : ℤ) : ℚ) / 2 + (p.tEB : ℚ)) ∧
      (∀ m, m < K →
        ∑ k ∈ Finset.Icc 1 m, SpecModel.Psync1 p.chs p.s p.pEB p.pSR k < 1 - eps9) ∧
      (1 - eps9 ≤ ∑ k ∈ Finset.Icc 1 K, SpecModel.Psync1 p.chs p.s p.pEB p.pSR k) ∧
      (∀ j, j ≤ K → r.cdf_.getD j 0 =
        ∑ k ∈ Finset.Icc 1 j, SpecModel.Psync1 p.chs p.s p.pEB p.pSR k) := by
  rw [Model.calculate, if_pos hcase] at hrun
  cases htr : Model.truncSum (Model.Psync1 p.chs p.s p.pEB p.pSR)
      (Model.stepTerm p.s p.tEB) fuel 1 0 0 with
  | none => rw [htr] at hrun; exact absurd hrun (by simp)
  | some AK =>
    rw [htr] at hrun
    obtain ⟨A, K⟩ := AK
    have hr : r = ⟨A, Model.buildCdf (Model.Psync1 p.chs p.s p.pEB p.pSR) K⟩ :=
      (Option.some.inj hrun).symm
    obtain ⟨hA, _, hmin, hth⟩ := truncSum_some_spec _ _ fuel 1 0 0 A K (le_refl 1)
      (by rw [show (1 : ℕ) - 1 = 0 from rfl,
        Finset.Icc_eq_empty (by omega : ¬ (1 : ℕ) ≤ 0), Finset.sum_empty])
      (by rw [show (1 : ℕ) - 1 = 0 from rfl,
        Finset.Icc_eq_empty (by omega : ¬ (1 : ℕ) ≤ 0), Finset.sum_empty])
      (fun m hm => absurd hm (by omega)) htr
    have hK1 : 1 ≤ K := by
      by_contra hK0
      have hK : K = 0 := by omega
      rw [hK, Finset.Icc_eq_empty (by omega : ¬ (1 : ℕ) ≤ 0), Finset.sum_empty] at hth
      norm_num [eps9] at hth
    subst hr
    simp only [Psync1_eq_spec, Model.stepTerm] at hA hmin hth
    refine ⟨K, hK1, ?_, hA, hmin, hth, ?_⟩
    · rw [show Model.Results.cdf_ ⟨A, Model.buildCdf _ K⟩ = Model.buildCdf _ K from rfl,
        buildCdf_length, Nat.max_eq_left hK1]
    · intro j hj
      rw [show Model.Results.cdf_ ⟨A, Model.buildCdf _ K⟩ = Model.buildCdf _ K from rfl,
        buildCdf_getD _ _ _ (by omega : j ≤ max K 1)]
      exact Finset.sum_congr rfl (fun k _ => Psync1_eq_spec _ _ _ _ _)

/-- C1 witness: the Case-1 theorem applied to a concrete run
(`wParamsCase1`, fuel 3, result average `5000000` ns, cdf `[0, 1]`). -/
theorem calculate_case1_spec_witness :
    ∃ K, 1 ≤ K ∧ (Model.Results.mk 5000000 [0, 1]).cdf_.length = K + 1 ∧
      (Model.Results.mk 5000000 [0, 1]).avgSyncTime_ =
        ∑ k ∈ Finset.Icc 1 K,
          SpecModel.Psync1 wParamsCase1.chs wParamsCase1.s wParamsCase1.pEB wParamsCase1.pSR k *
          (((k - 1 : ℕ) : ℚ) * ((slotDuration * wParamsCase1.s : ℤ) : ℚ) +
            ((slotDuration * wParamsCase1.s : ℤ) : ℚ) / 2 + (wParamsCase1.tEB : ℚ)) ∧
      (∀ m, m < K →
        ∑ k ∈ Finset.Icc 1 m,
          SpecModel.Psync1 wParamsCase1.chs wParamsCase1.s wParamsCase1.pEB wParamsCase1.pSR k <
          1 - eps9) ∧
      (1 - eps9 ≤ ∑ k ∈ Finset.Icc 1 K,
        SpecModel.Psync1 wParamsCase1.chs wParamsCase1.s wParamsCase1.pEB wParamsCase1.pSR k) ∧
      (∀ j, j ≤ K → (Model.Results.mk 5000000 [0, 1]).cdf_.getD j 0 =
        ∑ k ∈ Finset.Icc 1 j,
          SpecModel.Psync1 wParamsCase1.chs wParamsCase1.s wParamsCase1.pEB wParamsCase1.pSR k) :=
  calculate_case1_spec wParamsCase1 3 ⟨5000000, [0, 1]⟩ (by decide)
    (by norm_num [Model.calculate, Model.truncSum, Model.buildCdf, Model.Psync1,
      Model.PsyncCond1, Model.Pstep, Model.X, Model.W, Model.stepTerm, psrAt, forSumLen,
      forProd, eps9, wParamsCase1, slotDuration, List.lookup, List.range'])

/-- C2: with `tScan` an exact integer multiple `n` of `Tsf` (Case 2), the
per-step probability is the Case-1 base probability multiplied by the
survival factor `(1 - pEB*pSR[channel])^Nchp`, `Nchp = (k - k_f)/C`,
`k_f = ((k-1)/n)*n + 1` (integer division), composed into `Psync` through the
per-scan-period survival products; the expected time is the sum truncated at
the first `K` whose cumulative probability reaches `1 - 1e-9`, with the CDF
recording the per-step probabilities (as prefix sums). -/
theorem calculate_case2_spec (p : SyncParameters) (fuel : ℕ) (r : Model.Results)
    (hge : ¬ p.tScan < slotDuration * p.s)
    (hmod : p.tScan % (slotDuration * p.s) = 0)
    (hrun : Model.calculate p fuel = some r) :
    ∃ K, 1 ≤ K ∧ r.cdf_.length = K + 1 ∧
      r.avgSyncTime_ =
        ∑ k ∈ Finset.Icc 1 K,
          SpecModel.Psync2 p.chs p.s p.pEB p.pSR (p.tScan / (slotDuration * p.s)).toNat k *
          (((k - 1 : ℕ) : ℚ) * ((slotDuration * p.s : ℤ) : ℚ) +
            ((slotDuration * p.s : ℤ) : ℚ) / 2 + (p.tEB : ℚ)) ∧
      (∀ m, m < K →
        ∑ k ∈ Finset.Icc 1 m,
          SpecModel.Psync2 p.chs p.s p.pEB p.pSR (p.tScan / (slotDuration * p.s)).toNat k <
          1 - eps9) ∧
      (1 - eps9 ≤ ∑ k ∈ Finset.Icc 1 K,
        SpecModel.Psync2 p.chs p.s p.pEB p.pSR (p.tScan / (slotDuration * p.s)).toNat k) ∧
      (∀ j, j ≤ K → r.cdf_.getD j 0 =
        ∑ k ∈ Finset.Icc 1 j,
          SpecModel.Psync2 p.chs p.s p.pEB p.pSR (p.tScan / (slotDuration * p.s)).toNat k) := by
  rw [Model.calculate, if_neg hge, if_pos hmod] at hrun
  cases htr : Model.truncSum
      (Model.Psync2 p.chs p.s p.pEB p.pSR (p.tScan / (slotDuration * p.s)).toNat)
      (Model.stepTerm p.s p.tEB) fuel 1 0 0 with
  | none => rw [htr] at hrun; exact absurd hrun (by simp)
  | some AK =>
    rw [htr] at hrun
    obtain ⟨A, K⟩ := AK
    have hr : r = ⟨A, Model.buildCdf
        (Model.Psync2 p.chs p.s p.pEB p.pSR (p.tScan / (slotDuration * p.s)).toNat) K⟩ :=
      (Option.some.inj hrun).symm
    obtain ⟨hA, _, hmin, hth⟩ := truncSum_some_spec _ _ fuel 1 0 0 A K (le_refl 1)
      (by rw [show (1 : ℕ) - 1 = 0 from rfl,
        Finset.Icc_eq_empty (by omega : ¬ (1 : ℕ) ≤ 0), Finset.sum_empty])
      (by rw [show (1 : ℕ) - 1 = 0 from rfl,
        Finset.Icc_eq_empty (by omega : ¬ (1 : ℕ) ≤ 0), Finset.sum_empty])
      (fun m hm => absurd hm (by omega)) htr
    have hK1 : 1 ≤ K := by
      by_contra hK0
      have hK : K = 0 := by omega
      rw [hK, Finset.Icc_eq_empty (by omega : ¬ (1 : ℕ) ≤ 0), Finset.sum_empty] at hth
      norm_num [eps9] at hth
    subst hr
    simp only [Psync2_eq_spec, Model.stepTerm] at hA hmin hth
    refine ⟨K, hK1, ?_, hA, hmin, hth, ?_⟩
    · rw [show Model.Results.cdf_ ⟨A, Model.buildCdf _ K⟩ = Model.buildCdf _ K from rfl,
        buildCdf_length, Nat.max_eq_left hK1]
    · intro j hj
      rw [show Model.Results.cdf_ ⟨A, Model.buildCdf _ K⟩ = Model.buildCdf _ K from rfl,
        buildCdf_getD _ _ _ (by omega : j ≤ max K 1)]
      exact Finset.sum_congr rfl (fun k _ => Psync2_eq_spec _ _ _ _ _ _)

/-- C2 witness: the Case-2 theorem applied to a concrete run
(`wParamsCase2`, `n = 1`, fuel 3, result average `5000000` ns, cdf `[0, 1]`). -/
theorem calculate_case2_spec_witness :
    ∃ K, 1 ≤ K ∧ (Model.Results.mk 5000000 [0, 1]).cdf_.length = K + 1 ∧
      (Model.Results.mk 5000000 [0, 1]).avgSyncTime_ =
        ∑ k ∈ Finset.Icc 1 K,
          SpecModel.Psync2 wParamsCase2.chs wParamsCase2.s wParamsCase2.pEB wParamsCase2.pSR
            (wParamsCase2.tScan / (slotDuration * wParamsCase2.s)).toNat k *
          (((k - 1 : ℕ) : ℚ) * ((slotDuration * wParamsCase2.s : ℤ) : ℚ) +
            ((slotDuration * wParamsCase2.s : ℤ) : ℚ) / 2 + (wParamsCase2.tEB : ℚ)) ∧
      (∀ m, m < K →
        ∑ k ∈ Finset.Icc 1 m,
          SpecModel.Psync2 wParamsCase2.chs wParamsCase2.s wParamsCase2.pEB wParamsCase2.pSR
            (wParamsCase2.tScan / (slotDuration * wParamsCase2.s)).toNat k < 1 - eps9) ∧
      (1 - eps9 ≤ ∑ k ∈ Finset.Icc 1 K,
        SpecModel.Psync2 wParamsCase2.chs wParamsCase2.s wParamsCase2.pEB wParamsCase2.pSR
          (wParamsCase2.tScan / (slotDuration * wParamsCase2.s)).toNat k) ∧
      (∀ j, j ≤ K → (Model.Results.mk 5000000 [0, 1]).cdf_.getD j 0 =
        ∑ k ∈ Finset.Icc 1 j,
          SpecModel.Psync2 wParamsCase2.chs wParamsCase2.s wParamsCase2.pEB wParamsCase2.pSR
            (wParamsCase2.tScan / (slotDuration * wParamsCase2.s)).toNat k) :=
  calculate_case2_spec wParamsCase2 3 ⟨5000000, [0, 1]⟩ (by decide) (by decide)
    (by norm_num [Model.calculate, Model.truncSum, Model.buildCdf, Model.Psync2,
      Model.PsyncCond2, Model.PstepSp, Model.Qsp, Model.kf2, Model.Pstep, Model.X, Model.W,
      Model.stepTerm, psrAt, forSumLen, forProd, eps9, wParamsCase2, slotDuration,
      List.lookup, List.range'])

/-- With `pEB = 0` every per-step success probability of Case 1 is zero. -/
theorem Psync1_zParams_eq_zero (k : ℕ) :
    Model.Psync1 zParams.chs zParams.s zParams.pEB zParams.pSR k = 0 := by
  norm_num [Model.Psync1, Model.PsyncCond1, Model.Pstep, zParams, forSumLen]

/-- C4 counterexample: on the valid parameter set `zParams` (whose `pEB` is
0) the Case-1 truncation loop never reaches its stopping condition, so
`Model::calculate` does not run to completion for any amount of fuel. -/
theorem calcTerminates_pEB_zero_counterexample : ¬ Model.calcTerminates zParams := by
  rintro ⟨fuel, r, h⟩
  rw [Model.calculate, if_pos (by decide)] at h
  have hnone := truncSum_stuck
    (Model.Psync1 zParams.chs zParams.s zParams.pEB zParams.pSR)
    (Model.stepTerm zParams.s zParams.tEB)
    (fun m => by
      rw [Finset.sum_eq_zero (fun k _ => Psync1_zParams_eq_zero k)]
      norm_num [eps9])
    fuel 1 0 0 (le_refl 1)
    (by rw [show (1 : ℕ) - 1 = 0 from rfl,
      Finset.Icc_eq_empty (by omega : ¬ (1 : ℕ) ≤ 0), Finset.sum_empty])
  rw [hnone] at h
  exact absurd h (by simp)

/-- C4 (amended): in Case 1 and Case 2, `Model::calculate` runs to completion
exactly when the cumulative per-step success probability reaches the
truncation threshold `1 - 1e-9` at some finite step (which fails when
`pEB = 0` or every `pSR` entry is 0, where the probability stays 0). -/
theorem calcTerminates_iff_threshold (p : SyncParameters) :
    (p.tScan < slotDuration * p.s →
      (Model.calcTerminates p ↔
        ∃ N, 1 - eps9 ≤ ∑ k ∈ Finset.Icc 1 N, SpecModel.Psync1 p.chs p.s p.pEB p.pSR k)) ∧
    (¬ p.tScan < slotDuration * p.s → p.tScan % (slotDuration * p.s) = 0 →
      (Model.calcTerminates p ↔
        ∃ N, 1 - eps9 ≤ ∑ k ∈ Finset.Icc 1 N,
          SpecModel.Psync2 p.chs p.s p.pEB p.pSR (p.tScan / (slotDuration * p.s)).toNat k)) := by
  constructor
  · intro hcase
    constructor
    · rintro ⟨fuel, r, hrun⟩
      rw [Model.calculate, if_pos hcase] at hrun
      cases htr : Model.truncSum (Model.Psync1 p.chs p.s p.pEB p.pSR)
          (Model.stepTerm p.s p.tEB) fuel 1 0 0 with
      | none => rw [htr] at hrun; exact absurd hrun (by simp)
      | some AK =>
        obtain ⟨A, K⟩ := AK
        obtain ⟨_, _, _, hth⟩ := truncSum_some_spec _ _ fuel 1 0 0 A K (le_refl 1)
          (by rw [show (1 : ℕ) - 1 = 0 from rfl,
            Finset.Icc_eq_empty (by omega : ¬ (1 : ℕ) ≤ 0), Finset.sum_empty])
          (by rw [show (1 : ℕ) - 1 = 0 from rfl,
            Finset.Icc_eq_empty (by omega : ¬ (1 : ℕ) ≤ 0), Finset.sum_empty])
          (fun m hm => absurd hm (by omega)) htr
        exact ⟨K, by simpa only [Psync1_eq_spec] using hth⟩
    · rintro ⟨N, hN⟩
      refine ⟨N + 2, ?_⟩
      rw [Model.calculate, if_pos hcase]
      cases htr : Model.truncSum (Model.Psync1 p.chs p.s p.pEB p.pSR)
          (Model.stepTerm p.s p.tEB) (N + 2) 1 0 0 with
      | none =>
        exfalso
        have hbelow := truncSum_none_below _ _ (N + 2) 1 0 0 (le_refl 1)
          (by rw [show (1 : ℕ) - 1 = 0 from rfl,
            Finset.Icc_eq_empty (by omega : ¬ (1 : ℕ) ≤ 0), Finset.sum_empty]) htr
          N (by omega)
        rw [show (1 : ℕ) - 1 + N = N from by omega] at hbelow
        simp only [Psync1_eq_spec] at hbelow
        exact absurd hN (not_le.mpr hbelow)
      | some AK => exact ⟨⟨AK.1, Model.buildCdf (Model.Psync1 p.chs p.s p.pEB p.pSR) AK.2⟩,
          rfl⟩
  · intro hge hmod
    constructor
    · rintro ⟨fuel, r, hrun⟩
      rw [Model.calculate, if_neg hge, if_pos hmod] at hrun
      cases htr : Model.truncSum
          (Model.Psync2 p.chs p.s p.pEB p.pSR (p.tScan / (slotDuration * p.s)).toNat)
          (Model.stepTerm p.s p.tEB) fuel 1 0 0 with
      | none => rw [htr] at hrun; exact absurd hrun (by simp)
      | some AK =>
        obtain ⟨A, K⟩ := AK
        obtain ⟨_, _, _, hth⟩ := truncSum_some_spec _ _ fuel 1 0 0 A K (le_refl 1)
          (by rw [show (1 : ℕ) - 1 = 0 from rfl,
            Finset.Icc_eq_empty (by omega : ¬ (1 : ℕ) ≤ 0), Finset.sum_empty])
          (by rw [show (1 : ℕ) - 1 = 0 from rfl,
            Finset.Icc_eq_empty (by omega : ¬ (1 : ℕ) ≤ 0), Finset.sum_empty])
          (fun m hm => absurd hm (by omega)) htr
        exact ⟨K, by simpa only [Psync2_eq_spec] using hth⟩
    · rintro ⟨N, hN⟩
      refine ⟨N + 2, ?_⟩
      rw [Model.calculate, if_neg hge, if_pos hmod]
      cases htr : Model.truncSum
          (Model.Psync2 p.chs p.s p.pEB p.pSR (p.tScan / (slotDuration * p.s)).toNat)
          (Model.stepTerm p.s p.tEB) (N + 2) 1 0 0 with
      | none =>
        exfalso
        have hbelow := truncSum_none_below _ _ (N + 2) 1 0 0 (le_refl 1)
          (by rw [show (1 : ℕ) - 1 = 0 from rfl,
            Finset.Icc_eq_empty (by omega : ¬ (1 : ℕ) ≤ 0), Finset.sum_empty]) htr
          N (by omega)
        rw [show (1 : ℕ) - 1 + N = N from by omega] at hbelow
        simp only [Psync2_eq_spec] at hbelow
        exact absurd hN (not_le.mpr hbelow)
      | some AK => exact ⟨⟨AK.1, Model.buildCdf
          (Model.Psync2 p.chs p.s p.pEB p.pSR (p.tScan / (slotDuration * p.s)).toNat) AK.2⟩,
          rfl⟩

/-- C4 witness: on the concrete Case-1 parameter set `wParamsCase1` the
cumulative probability reaches the threshold at step 1, so the amended
theorem yields termination of `Model::calculate`. -/
theorem calcTerminates_iff_threshold_witness : Model.calcTerminates wParamsCase1 :=
  ((calcTerminates_iff_threshold wParamsCase1).1 (by decide)).mpr
    ⟨1, by norm_num [SpecModel.Psync1, SpecModel.Pstep, SpecModel.W, psrAt, eps9,
      wParamsCase1, List.lookup]⟩

/-- C6: for both engines, `Results::cdf` raises the invalid-query error
exactly at `steps = 0`; every step at or beyond the recorded size yields
exactly 1; a recorded step yields the stored cumulative probability. -/
theorem results_cdf_query_spec (r : Model.Results) (r2 : Simulator.Results) (steps : ℕ)
    (hpos : 1 ≤ steps) :
    Model.Results.cdf r 0 = .error "steps must be greater than zero." ∧
    Simulator.Results.cdf r2 0 = .error "steps must be greater than zero." ∧
    (r.cdf_.length ≤ steps → Model.Results.cdf r steps = .ok 1) ∧
    (r2.cdf_.length ≤ steps → Simulator.Results.cdf r2 steps = .ok 1) ∧
    (steps < r.cdf_.length → Model.Results.cdf r steps = .ok (r.cdf_.getD steps 0)) ∧
    (steps < r2.cdf_.length → Simulator.Results.cdf r2 steps = .ok (r2.cdf_.getD steps 0)) := by
  unfold Model.Results.cdf Simulator.Results.cdf
  refine ⟨by norm_num, by norm_num, ?_, ?_, ?_, ?_⟩ <;> intro h
  · rw [if_neg (by omega), if_pos h]
  · rw [if_neg (by omega), if_pos h]
  · rw [if_neg (by omega), if_neg (by omega)]
  · rw [if_neg (by omega), if_neg (by omega)]

/-- C6 witness: the query specification applied to concrete results with
three recorded entries, queried at step 1 (recorded) and at step 3 and
beyond (mass exhausted). -/
theorem results_cdf_query_spec_witness :
    Model.Results.cdf ⟨0, [0, 1/2, 1]⟩ 0 = .error "steps must be greater than zero." ∧
    (1 < (Model.Results.mk 0 [0, 1/2, 1]).cdf_.length →
      Model.Results.cdf ⟨0, [0, 1/2, 1]⟩ 1 =
        .ok ((Model.Results.mk 0 [0, 1/2, 1]).cdf_.getD 1 0)) ∧
    ((Simulator.Results.mk 0 [0, 1/2, 1]).cdf_.length ≤ 3 →
      Simulator.Results.cdf ⟨0, [0, 1/2, 1]⟩ 3 = .ok 1) :=
  ⟨(results_cdf_query_spec ⟨0, [0, 1/2, 1]⟩ ⟨0, [0, 1/2, 1]⟩ 1 (by omega)).1,
   (results_cdf_query_spec ⟨0, [0, 1/2, 1]⟩ ⟨0, [0, 1/2, 1]⟩ 1 (by omega)).2.2.2.2.1,
   (results_cdf_query_spec ⟨0, [0, 1/2, 1]⟩ ⟨0, [0, 1/2, 1]⟩ 3 (by omega)).2.2.2.1⟩

/-- C7: `Simulator::run` fails with the invalid-argument error iff
`numRuns ≤ 0`; the guard is checked before any computation (the failure is
the same for every parameter set, random stream and fuel, and no results are
produced), and with a positive `numRuns` the call never raises. -/
theorem run_numRuns_guard_spec (p : SyncParameters) (numRuns : ℤ)
    (rs : Simulator.RandStreams) (fuel : ℕ) :
    (numRuns ≤ 0 →
      Simulator.run p numRuns rs fuel =
        .error "The parameter numRuns must be greater than 0") ∧
    (0 < numRuns → ∃ o, Simulator.run p numRuns rs fuel = .ok o) := by
  unfold Simulator.run
  constructor
  · intro h
    rw [if_pos h]
  · intro h
    rw [if_neg (by omega)]
    exact ⟨_, rfl⟩

/-- C7 witness: the guard specification at `numRuns = 0` (error) and
`numRuns = 5` (no error) on concrete inputs. -/
theorem run_numRuns_guard_spec_witness :
    Simulator.run wParamsCase1 0 rs0 1 =
      .error "The parameter numRuns must be greater than 0" ∧
    ∃ o, Simulator.run wParamsCase1 5 rs0 1 = .ok o :=
  ⟨(run_numRuns_guard_spec wParamsCase1 0 rs0 1).1 (by omega),
   (run_numRuns_guard_spec wParamsCase1 5 rs0 1).2 (by omega)⟩

/-- C8: `TimeInterval` satisfies `intersection(I, I) = I` for every valid
interval, the intersection of two disjoint non-empty intervals is empty, the
empty interval has length 0, and `isSubsetOf` is false whenever either side
is empty. -/
theorem timeInterval_spec :
    (∀ I : TimeInterval, TimeInterval.Valid I → TimeInterval.intersection I I = I) ∧
    (∀ a1 b1 a2 b2 : ℤ, TimeInterval.Valid (some (a1, b1)) →
      TimeInterval.Valid (some (a2, b2)) →
      (∀ t : ℤ, ¬ (a1 ≤ t ∧ t ≤ b1 ∧ a2 ≤ t ∧ t ≤ b2)) →
      TimeInterval.intersection (some (a1, b1)) (some (a2, b2)) = none) ∧
    TimeInterval.length none = 0 ∧
    (∀ I : TimeInterval, TimeInterval.isSubsetOf none I = false ∧
      TimeInterval.isSubsetOf I none = false) := by
  refine ⟨?_, ?_, rfl, ?_⟩
  · rintro (_ | ⟨a, b⟩) hval
    · rfl
    · have hab : a ≤ b := hval
      simp only [TimeInterval.intersection]
      rw [if_neg (by omega)]
      rw [max_self, min_self]
  · intro a1 b1 a2 b2 hv1 hv2 hdis
    have hd : b1 < a2 ∨ b2 < a1 := by
      by_contra hcon
      push_neg at hcon
      exact hdis (max a1 a2)
        ⟨le_max_left _ _, max_le (hv1 : a1 ≤ b1) hcon.1,
         le_max_right _ _, max_le hcon.2 (hv2 : a2 ≤ b2)⟩
    simp only [TimeInterval.intersection]
    rw [if_pos (by omega)]
  · rintro (_ | ⟨a, b⟩)
    · exact ⟨rfl, rfl⟩
    · exact ⟨rfl, rfl⟩

/-- C8 witness: the interval specification applied at `[0, 5]` (idempotent
intersection) and at the disjoint pair `[0, 1]`, `[3, 4]` (empty
intersection). -/
theorem timeInterval_spec_witness :
    TimeInterval.intersection (some ((0 : ℤ), (5 : ℤ))) (some (0, 5)) = some (0, 5) ∧
    TimeInterval.intersection (some ((0 : ℤ), (1 : ℤ))) (some (3, 4)) = none :=
  ⟨timeInterval_spec.1 (some (0, 5)) (by decide),
   timeInterval_spec.2.1 0 1 3 4 (by decide) (by decide) (fun t => by omega)⟩

/-- C9: the analytic solver never reads `tSwitch`: two parameter sets that
differ only in the switch delay produce identical `Model::calculate` results
(same average time and same cdf at every step). -/
theorem calculate_ignores_tSwitch (chs : List ℤ) (s : ℤ) (pEB : ℚ) (pSR : List (ℤ × ℚ))
    (tScan tSw tSw2 tEB : ℤ) (fuel : ℕ) :
    Model.calculate ⟨chs, s, pEB, pSR, tScan, tSw, tEB⟩ fuel =
      Model.calculate ⟨chs, s, pEB, pSR, tScan, tSw2, tEB⟩ fuel := rfl

/-- C10: the constructor accepts an empty channel sequence: with `chs = []`,
`s = 1` (so `gcd(0, 1) = 1`), an empty `pSR` and otherwise valid values all
nine checks pass and the zero-channel parameter object is produced. -/
theorem mkSyncParameters_empty_chs :
    mkSyncParameters [] 1 (1/2) [] 1 0 0 = .ok ⟨[], 1, 1/2, [], 1, 0, 0⟩ := by
  norm_num [mkSyncParameters, mkSyncParamsRest, checkPsr]

/-! ## The CDF construction of `Simulator::run` -/

theorem getD_map_range_from (f : ℕ → ℚ) (st len j : ℕ) (d : ℚ) (h : j < len) :
    ((List.range' st len).map f).getD j d = f (st + j) := by
  rw [List.getD_eq_getElem?_getD, List.getElem?_map]
  simp [List.getElem?_range', h]

theorem countP_step (steps : List ℤ) (i : ℤ) (hi : 1 ≤ i) :
    steps.countP (fun st => decide (1 ≤ st) && decide (st ≤ i - 1)) + steps.count i =
      steps.countP (fun st => decide (1 ≤ st) && decide (st ≤ i)) := by
  induction steps with
  | nil => rfl
  | cons a l ih =>
    simp only [List.countP_cons, List.count_cons, ← ih]
    by_cases h1 : (1 : ℤ) ≤ a <;> by_cases h2 : a ≤ i - 1 <;> by_cases h3 : a = i <;>
      by_cases h4 : a ≤ i <;> simp [h1, h2, h3, h4, hi] <;> omega

theorem simBuildCdf_go (steps : List ℤ) (N : ℤ) :
    ∀ (len k0 : ℕ), 1 ≤ k0 → ∀ (cur : List ℚ),
    ((List.range' k0 len).foldl
      (fun (st : List ℚ × ℤ) (i : ℕ) =>
        let sum := st.2 + steps.count (i : ℤ)
        (st.1 ++ [(sum : ℚ) / (N : ℚ)], sum))
      (cur, (steps.countP (fun st => decide (1 ≤ st) && decide (st ≤ ((k0 : ℕ) : ℤ) - 1)) : ℤ))).1 =
    cur ++ (List.range' k0 len).map
      (fun i : ℕ =>
        ((steps.countP (fun st => decide (1 ≤ st) && decide (st ≤ ((i : ℕ) : ℤ))) : ℤ) : ℚ) /
          (N : ℚ)) := by
  intro len
  induction len with
  | zero => intro k0 _ cur; simp
  | succ len ih =>
    intro k0 hk0 cur
    rw [List.range'_succ, List.map_cons]
    simp only [List.foldl_cons]
    have hsum : (steps.countP (fun st => decide (1 ≤ st) && decide (st ≤ ((k0 : ℕ) : ℤ) - 1)) : ℤ) +
        (steps.count ((k0 : ℕ) : ℤ) : ℤ) =
        (steps.countP (fun st => decide (1 ≤ st) && decide (st ≤ ((k0 : ℕ) : ℤ))) : ℤ) := by
      rw [← countP_step steps ((k0 : ℕ) : ℤ) (by exact_mod_cast hk0)]
      push_cast
      ring
    rw [hsum]
    have ih2 := ih (k0 + 1) (by omega)
      (cur ++ [((steps.countP (fun st => decide (1 ≤ st) && decide (st ≤ ((k0 : ℕ) : ℤ))) : ℤ) : ℚ) /
        (N : ℚ)])
    rw [show (((k0 + 1 : ℕ) : ℤ) - 1) = ((k0 : ℕ) : ℤ) from by push_cast; ring] at ih2
    rw [ih2, List.append_assoc]
    rfl

theorem simBuildCdf_eq (steps : List ℤ) (N : ℤ) :
    Simulator.simBuildCdf steps N =
      [0] ++ (List.range' 1 (Simulator.listMax steps).toNat).map
        (fun i : ℕ =>
          ((steps.countP (fun st => decide (1 ≤ st) && decide (st ≤ ((i : ℕ) : ℤ))) : ℤ) : ℚ) /
            (N : ℚ)) := by
  have h0 : (steps.countP (fun st => decide (1 ≤ st) && decide (st ≤ ((1 : ℕ) : ℤ) - 1)) : ℤ) =
      (0 : ℤ) := by
    rw [List.countP_eq_zero.mpr]
    · rfl
    · intro a _
      simp only [Bool.and_eq_true, decide_eq_true_eq, not_and]
      intro h1
      omega
  have hgo := simBuildCdf_go steps N (Simulator.listMax steps).toNat 1 (le_refl 1) [0]
  rw [h0] at hgo
  rw [Simulator.simBuildCdf]
  exact hgo

theorem foldl_max_ge (l : List ℤ) :
    ∀ a : ℤ, a ≤ l.foldl max a ∧ ∀ x ∈ l, x ≤ l.foldl max a := by
  induction l with
  | nil => intro a; exact ⟨le_refl a, by simp⟩
  | cons b l ih =>
    intro a
    rw [List.foldl_cons]
    obtain ⟨h1, h2⟩ := ih (max a b)
    refine ⟨le_trans (le_max_left a b) h1, ?_⟩
    intro x hx
    rcases List.mem_cons.mp hx with rfl | hx
    · exact le_trans (le_max_right a x) h1
    · exact h2 x hx

theorem listMax_ge (l : List ℤ) (x : ℤ) (hx : x ∈ l) : x ≤ Simulator.listMax l := by
  cases l with
  | nil => cases hx
  | cons h t =>
    rw [Simulator.listMax]
    rcases List.mem_cons.mp hx with rfl | hxt
    · exact (foldl_max_ge t x).1
    · exact (foldl_max_ge t h).2 x hxt

theorem model_cdf_eval (avg : ℚ) (l : List ℚ) (s1 : ℕ) (h : 1 ≤ s1) :
    (Model.Results.mk avg l).cdf s1 = if l.length ≤ s1 then .ok 1 else .ok (l.getD s1 0) := by
  unfold Model.Results.cdf
  rw [if_neg (by omega)]

theorem sim_cdf_eval (avg : ℚ) (l : List ℚ) (s1 : ℕ) (h : 1 ≤ s1) :
    (Simulator.Results.mk avg l).cdf s1 =
      if l.length ≤ s1 then .ok 1 else .ok (l.getD s1 0) := by
  unfold Simulator.Results.cdf
  rw [if_neg (by omega)]

/-- C3: for both engines the produced CDF is non-decreasing in the step,
every value lies in [0, 1], and it converges to 1 (queries beyond the
recorded range return exactly 1), under the stated conditions: for the
analytic engine the recorded per-step probabilities are non-negative with
total at most 1; for the Monte-Carlo estimator every one of the `numRuns`
trials is counted at some step at least 1 (so the cdf reaches 1 at the last
recorded step). -/
theorem cdf_shape_spec (P : ℕ → ℚ) (maxStep : ℕ) (avg avg2 : ℚ) (steps : List ℤ)
    (numRuns : ℤ)
    (hP : ∀ k ∈ Finset.Icc 1 (max maxStep 1), 0 ≤ P k)
    (hsum : ∑ k ∈ Finset.Icc 1 (max maxStep 1), P k ≤ 1)
    (hne : steps ≠ [])
    (hpos : ∀ st ∈ steps, 1 ≤ st)
    (hN : numRuns = (steps.length : ℤ)) :
    ((∀ s1, 1 ≤ s1 →
        ∃ v, (Model.Results.mk avg (Model.buildCdf P maxStep)).cdf s1 = .ok v ∧
          0 ≤ v ∧ v ≤ 1) ∧
      (∀ s1 s2 v1 v2, 1 ≤ s1 → s1 ≤ s2 →
        (Model.Results.mk avg (Model.buildCdf P maxStep)).cdf s1 = .ok v1 →
        (Model.Results.mk avg (Model.buildCdf P maxStep)).cdf s2 = .ok v2 → v1 ≤ v2) ∧
      (∀ s1, (Model.buildCdf P maxStep).length ≤ s1 →
        (Model.Results.mk avg (Model.buildCdf P maxStep)).cdf s1 = .ok 1)) ∧
    ((∀ s1, 1 ≤ s1 →
        ∃ v, (Simulator.Results.mk avg2 (Simulator.simBuildCdf steps numRuns)).cdf s1 = .ok v ∧
          0 ≤ v ∧ v ≤ 1) ∧
      (∀ s1 s2 v1 v2, 1 ≤ s1 → s1 ≤ s2 →
        (Simulator.Results.mk avg2 (Simulator.simBuildCdf steps numRuns)).cdf s1 = .ok v1 →
        (Simulator.Results.mk avg2 (Simulator.simBuildCdf steps numRuns)).cdf s2 = .ok v2 →
        v1 ≤ v2) ∧
      (∀ s1, (Simulator.simBuildCdf steps numRuns).length ≤ s1 →
        (Simulator.Results.mk avg2 (Simulator.simBuildCdf steps numRuns)).cdf s1 = .ok 1) ∧
      (Simulator.Results.mk avg2 (Simulator.simBuildCdf steps numRuns)).cdf
        (Simulator.listMax steps).toNat = .ok 1) := by
  have hmlen : (Model.buildCdf P maxStep).length = max maxStep 1 + 1 := buildCdf_length P maxStep
  have hnn : ∀ j, j ≤ max maxStep 1 → 0 ≤ ∑ i ∈ Finset.Icc 1 j, P i := by
    intro j hj
    refine Finset.sum_nonneg (fun k hk => hP k ?_)
    rw [Finset.mem_Icc] at hk ⊢
    omega
  have hmono : ∀ j1 j2, j1 ≤ j2 → j2 ≤ max maxStep 1 →
      (∑ i ∈ Finset.Icc 1 j1, P i) ≤ ∑ i ∈ Finset.Icc 1 j2, P i := by
    intro j1 j2 h12 h2
    refine Finset.sum_le_sum_of_subset_of_nonneg (Finset.Icc_subset_Icc le_rfl h12) ?_
    intro k hk _
    refine hP k ?_
    rw [Finset.mem_Icc] at hk ⊢
    omega
  have hub : ∀ j, j ≤ max maxStep 1 → (∑ i ∈ Finset.Icc 1 j, P i) ≤ 1 :=
    fun j hj => le_trans (hmono j (max maxStep 1) hj le_rfl) hsum
  obtain ⟨st0, hst0⟩ := List.exists_mem_of_ne_nil steps hne
  have hlmax : (1 : ℤ) ≤ Simulator.listMax steps :=
    le_trans (hpos st0 hst0) (listMax_ge steps st0 hst0)
  have hL1 : 1 ≤ (Simulator.listMax steps).toNat := by omega
  have hcastL : (((Simulator.listMax steps).toNat : ℕ) : ℤ) = Simulator.listMax steps := by
    omega
  have hlen0 : (0 : ℕ) < steps.length := List.length_pos.mpr hne
  have hNpos : (0 : ℚ) < (numRuns : ℚ) := by
    rw [hN]
    exact_mod_cast hlen0
  have hslen : (Simulator.simBuildCdf steps numRuns).length =
      1 + (Simulator.listMax steps).toNat := by
    rw [simBuildCdf_eq]
    simp
    omega
  have hval : ∀ j, 1 ≤ j → j ≤ (Simulator.listMax steps).toNat →
      (Simulator.simBuildCdf steps numRuns).getD j 0 =
        ((steps.countP (fun st => decide (1 ≤ st) && decide (st ≤ ((j : ℕ) : ℤ))) : ℤ) : ℚ) /
          (numRuns : ℚ) := by
    intro j hj1 hj2
    rw [simBuildCdf_eq]
    obtain ⟨m, rfl⟩ := Nat.exists_eq_add_of_le hj1
    rw [show (1 : ℕ) + m = m + 1 from by omega, List.singleton_append, List.getD_cons_succ,
      getD_map_range_from _ _ _ _ _ (by omega), show 1 + m = m + 1 from by omega]
  have hcnt_le : ∀ j : ℕ,
      steps.countP (fun st => decide (1 ≤ st) && decide (st ≤ ((j : ℕ) : ℤ))) ≤ steps.length :=
    fun j => List.countP_le_length _
  have hemono : ∀ j1 j2 : ℕ, j1 ≤ j2 →
      steps.countP (fun st => decide (1 ≤ st) && decide (st ≤ ((j1 : ℕ) : ℤ))) ≤
        steps.countP (fun st => decide (1 ≤ st) && decide (st ≤ ((j2 : ℕ) : ℤ))) := by
    intro j1 j2 h12
    refine List.countP_mono_left (fun a _ ha => ?_)
    simp only [Bool.and_eq_true, decide_eq_true_eq] at ha ⊢
    omega
  have hfull : steps.countP
      (fun st => decide (1 ≤ st) &&
        decide (st ≤ (((Simulator.listMax steps).toNat : ℕ) : ℤ))) = steps.length := by
    refine List.countP_eq_length.mpr (fun a ha => ?_)
    simp only [Bool.and_eq_true, decide_eq_true_eq]
    refine ⟨hpos a ha, ?_⟩
    rw [hcastL]
    exact listMax_ge steps a ha
  have he0 : ∀ j : ℕ, (0 : ℚ) ≤
      ((steps.countP (fun st => decide (1 ≤ st) && decide (st ≤ ((j : ℕ) : ℤ))) : ℤ) : ℚ) /
        (numRuns : ℚ) := by
    intro j
    refine div_nonneg ?_ (le_of_lt hNpos)
    positivity
  have he1 : ∀ j : ℕ,
      ((steps.countP (fun st => decide (1 ≤ st) && decide (st ≤ ((j : ℕ) : ℤ))) : ℤ) : ℚ) /
        (numRuns : ℚ) ≤ 1 := by
    intro j
    rw [div_le_one hNpos, hN]
    exact_mod_cast hcnt_le j
  have heq1 :
      ((steps.countP (fun st => decide (1 ≤ st) &&
          decide (st ≤ (((Simulator.listMax steps).toNat : ℕ) : ℤ))) : ℤ) : ℚ) /
        (numRuns : ℚ) = 1 := by
    rw [hfull, hN]
    exact div_self (ne_of_gt (by exact_mod_cast hlen0))
  refine ⟨⟨?_, ?_, ?_⟩, ?_, ?_, ?_, ?_⟩
  · -- analytic: every queried value exists and lies in [0, 1]
    intro s1 hs1
    rw [model_cdf_eval _ _ _ hs1]
    by_cases hsz : (Model.buildCdf P maxStep).length ≤ s1
    · rw [if_pos hsz]
      exact ⟨1, rfl, by norm_num⟩
    · rw [if_neg hsz]
      have hle : s1 ≤ max maxStep 1 := by omega
      rw [buildCdf_getD _ _ _ hle]
      exact ⟨_, rfl, hnn s1 hle, hub s1 hle⟩
  · -- analytic: monotone
    intro s1 s2 v1 v2 hs1 h12 e1 e2
    rw [model_cdf_eval _ _ _ hs1] at e1
    rw [model_cdf_eval _ _ _ (by omega)] at e2
    split_ifs at e1 e2 with hA hB
    · rw [← Except.ok.inj e1, ← Except.ok.inj e2]
    · exact absurd hB (by omega)
    · rw [← Except.ok.inj e1, ← Except.ok.inj e2]
      have hle : s1 ≤ max maxStep 1 := by omega
      rw [buildCdf_getD _ _ _ hle]
      exact hub s1 hle
    · rw [← Except.ok.inj e1, ← Except.ok.inj e2]
      have hle1 : s1 ≤ max maxStep 1 := by omega
      have hle2 : s2 ≤ max maxStep 1 := by omega
      rw [buildCdf_getD _ _ _ hle1, buildCdf_getD _ _ _ hle2]
      exact hmono s1 s2 h12 hle2
  · -- analytic: beyond the recorded range the query returns 1
    intro s1 hs1
    rw [model_cdf_eval _ _ _ (by omega), if_pos hs1]
  · -- Monte Carlo: every queried value exists and lies in [0, 1]
    intro s1 hs1
    rw [sim_cdf_eval _ _ _ hs1]
    by_cases hsz : (Simulator.simBuildCdf steps numRuns).length ≤ s1
    · rw [if_pos hsz]
      exact ⟨1, rfl, by norm_num⟩
    · rw [if_neg hsz]
      have hle : s1 ≤ (Simulator.listMax steps).toNat := by omega
      rw [hval s1 hs1 hle]
      exact ⟨_, rfl, he0 s1, he1 s1⟩
  · -- Monte Carlo: monotone
    intro s1 s2 v1 v2 hs1 h12 e1 e2
    rw [sim_cdf_eval _ _ _ hs1] at e1
    rw [sim_cdf_eval _ _ _ (by omega)] at e2
    split_ifs at e1 e2 with hA hB
    · rw [← Except.ok.inj e1, ← Except.ok.inj e2]
    · exact absurd hB (by omega)
    · rw [← Except.ok.inj e1, ← Except.ok.inj e2]
      have hle : s1 ≤ (Simulator.listMax steps).toNat := by omega
      rw [hval s1 hs1 hle]
      exact he1 s1
    · rw [← Except.ok.inj e1, ← Except.ok.inj e2]
      have hle1 : s1 ≤ (Simulator.listMax steps).toNat := by omega
      have hle2 : s2 ≤ (Simulator.listMax steps).toNat := by omega
      rw [hval s1 hs1 hle1, hval s2 (by omega) hle2]
      refine div_le_div_of_nonneg_right ?_ (le_of_lt hNpos)
      exact_mod_cast hemono s1 s2 h12
  · -- Monte Carlo: beyond the recorded range the query returns 1
    intro s1 hs1
    rw [sim_cdf_eval _ _ _ (by omega), if_pos hs1]
  · -- Monte Carlo: the last recorded step already carries the full mass
    rw [sim_cdf_eval _ _ _ hL1, if_neg (by omega),
      hval _ hL1 le_rfl, heq1]

/-- C3 witness: the CDF-shape theorem applied at the concrete analytic
per-step probabilities `P = 1/2` with `maxStep = 2`, and the concrete
Monte-Carlo trial steps `[1, 2]` with `numRuns = 2`. -/
theorem cdf_shape_spec_witness :
    (∃ v, (Model.Results.mk 0 (Model.buildCdf (fun _ => 1/2) 2)).cdf 1 = .ok v ∧
      0 ≤ v ∧ v ≤ 1) ∧
    (Simulator.Results.mk 0 (Simulator.simBuildCdf [1, 2] 2)).cdf
      (Simulator.listMax [1, 2]).toNat = .ok 1 :=
  ⟨(cdf_shape_spec (fun _ => 1/2) 2 0 0 [1, 2] 2
      (fun k _ => by norm_num) (by norm_num [Finset.sum_const, Nat.card_Icc])
      (by simp) (by decide) (by decide)).1.1 1 (by omega),
   (cdf_shape_spec (fun _ => 1/2) 2 0 0 [1, 2] 2
      (fun k _ => by norm_num) (by norm_num [Finset.sum_const, Nat.card_Icc])
      (by simp) (by decide) (by decide)).2.2.2.2⟩

/-! ## The SyncParameters constructor -/

theorem checkPsr_none_iff (chs : List ℤ) (pSR : List (ℤ × ℚ)) :
    checkPsr chs pSR = none ↔
      ∀ c ∈ chs, ∃ q, pSR.lookup c = some q ∧ 0 ≤ q ∧ q ≤ 1 := by
  induction chs with
  | nil => simp [checkPsr]
  | cons c rest ih =>
    rw [checkPsr]
    cases hl : pSR.lookup c with
    | none =>
      constructor
      · intro h
        exact absurd h (by simp)
      · intro h
        obtain ⟨q, hq, _⟩ := h c (List.mem_cons_self c rest)
        rw [hl] at hq
        cases hq
    | some q =>
      show (if q < 0 ∨ q > 1 then some "pSR contains an invalid probability."
          else checkPsr rest pSR) = none ↔
        ∀ c2 ∈ c :: rest, ∃ q2, pSR.lookup c2 = some q2 ∧ 0 ≤ q2 ∧ q2 ≤ 1
      by_cases hq : q < 0 ∨ q > 1
      · rw [if_pos hq]
        constructor
        · intro h
          exact absurd h (by simp)
        · intro h
          obtain ⟨q2, hq2, h0, h1⟩ := h c (List.mem_cons_self c rest)
          rw [hl] at hq2
          obtain rfl := Option.some.inj hq2
          rcases hq with h2 | h2 <;> linarith
      · rw [if_neg hq, ih]
        push_neg at hq
        constructor
        · intro h c2 hc2
          rcases List.mem_cons.mp hc2 with rfl | hc2
          · exact ⟨q, hl, hq.1, hq.2⟩
          · exact h c2 hc2
        · intro h c2 hc2
          exact h c2 (List.mem_cons_of_mem _ hc2)

theorem lookup_some_mem (c : ℤ) (q : ℚ) :
    ∀ pSR : List (ℤ × ℚ), pSR.lookup c = some q → c ∈ pSR.map Prod.fst
  | [], h => by cases h
  | (k, v) :: rest, h => by
    rw [List.map_cons]
    simp only [List.lookup] at h
    by_cases hc : c = k
    · exact List.mem_cons.mpr (Or.inl hc)
    · rw [show (c == k) = false from beq_eq_false_iff_ne.mpr hc] at h
      exact List.mem_cons_of_mem _ (lookup_some_mem c q rest h)

/-- C5: the constructor checks the nine validity conditions in source order
and raises the invalid-configuration error exactly when one fails, with no
partial effects: it returns a parameter object iff all nine hold, and then
every stored field is the input unchanged.  (`hkeys` is the `std::map` key
uniqueness of `pSR`.) -/
theorem mkSyncParameters_spec (chs : List ℤ) (s : ℤ) (pEB : ℚ) (pSR : List (ℤ × ℚ))
    (tScan tSwitch tEB : ℤ) (p : SyncParameters)
    (hkeys : (pSR.map Prod.fst).Nodup) :
    mkSyncParameters chs s pEB pSR tScan tSwitch tEB = .ok p ↔
      ((∀ c ∈ chs, 11 ≤ c ∧ c ≤ 26) ∧
       chs.Nodup ∧
       0 < s ∧
       Nat.gcd chs.length s.toNat = 1 ∧
       (0 ≤ pEB ∧ pEB ≤ 1) ∧
       (∀ c ∈ chs, ∃ q, pSR.lookup c = some q ∧ 0 ≤ q ∧ q ≤ 1) ∧
       (∀ kv ∈ pSR, kv.1 ∈ chs) ∧
       0 < tScan ∧
       0 ≤ tSwitch ∧
       0 ≤ tEB ∧
       p = ⟨chs, s, pEB, pSR, tScan, tSwitch, tEB⟩) := by
  rw [mkSyncParameters]
  constructor
  · intro h
    by_cases h1 : chs.any (fun c => decide (c < 11 ∨ c > 26)) = true
    · rw [if_pos h1] at h
      exact absurd h (by simp)
    rw [if_neg h1] at h
    by_cases h2 : ¬ chs.Nodup
    · rw [if_pos h2] at h
      exact absurd h (by simp)
    rw [if_neg h2] at h
    by_cases h3 : s ≤ 0
    · rw [if_pos h3] at h
      exact absurd h (by simp)
    rw [if_neg h3] at h
    by_cases h4 : Nat.gcd chs.length s.toNat ≠ 1
    · rw [if_pos h4] at h
      exact absurd h (by simp)
    rw [if_neg h4] at h
    by_cases h5 : pEB < 0 ∨ pEB > 1
    · rw [if_pos h5] at h
      exact absurd h (by simp)
    rw [if_neg h5] at h
    cases hc : checkPsr chs pSR with
    | some e =>
      rw [hc] at h
      exact absurd h (by simp)
    | none =>
      rw [hc] at h
      have h' : mkSyncParamsRest chs s pEB pSR tScan tSwitch tEB = .ok p := h
      rw [mkSyncParamsRest] at h'
      by_cases h6 : pSR.length > chs.length
      · rw [if_pos h6] at h'
        exact absurd h' (by simp)
      rw [if_neg h6] at h'
      by_cases h7 : tScan ≤ 0
      · rw [if_pos h7] at h'
        exact absurd h' (by simp)
      rw [if_neg h7] at h'
      by_cases h8 : tSwitch < 0
      · rw [if_pos h8] at h'
        exact absurd h' (by simp)
      rw [if_neg h8] at h'
      by_cases h9 : tEB < 0
      · rw [if_pos h9] at h'
        exact absurd h' (by simp)
      rw [if_neg h9] at h'
      have hcov := (checkPsr_none_iff chs pSR).mp hc
      have hnodup : chs.Nodup := not_not.mp h2
      have hchs_sub : chs ⊆ pSR.map Prod.fst := by
        intro c hcm
        obtain ⟨q, hq, _⟩ := hcov c hcm
        exact lookup_some_mem c q pSR hq
      have hperm : chs.Perm (pSR.map Prod.fst) := by
        refine (hnodup.subperm hchs_sub).perm_of_length_le ?_
        rw [List.length_map]
        omega
      refine ⟨?_, hnodup, by omega, not_not.mp h4, ?_, hcov, ?_, by omega, by omega, by omega,
        (Except.ok.inj h').symm⟩
      · intro c hcm
        simp only [List.any_eq_true, decide_eq_true_eq, not_exists] at h1
        push_neg at h1
        have := h1 c hcm
        omega
      · push_neg at h5
        exact h5
      · intro kv hkv
        exact hperm.mem_iff.mpr (List.mem_map_of_mem Prod.fst hkv)
  · rintro ⟨R1, R2, R3, R4, R5, R6, R7, R8, R9, R10, R11⟩
    rw [if_neg (show ¬ chs.any (fun c => decide (c < 11 ∨ c > 26)) = true from by
      simp only [List.any_eq_true, decide_eq_true_eq, not_exists]
      push_neg
      intro c hcm
      have := R1 c hcm
      omega)]
    rw [if_neg (not_not_intro R2)]
    rw [if_neg (by omega : ¬ s ≤ 0)]
    rw [if_neg (not_not_intro R4)]
    rw [if_neg (show ¬ (pEB < 0 ∨ pEB > 1) from by
      rintro (h | h) <;> linarith [R5.1, R5.2])]
    rw [(checkPsr_none_iff chs pSR).mpr R6]
    show mkSyncParamsRest chs s pEB pSR tScan tSwitch tEB = .ok p
    rw [mkSyncParamsRest]
    rw [if_neg (show ¬ pSR.length > chs.length from by
      have hk_sub : pSR.map Prod.fst ⊆ chs := by
        intro c hcm
        obtain ⟨kv, hkv, rfl⟩ := List.mem_map.mp hcm
        exact R7 kv hkv
      have := (hkeys.subperm hk_sub).length_le
      rw [List.length_map] at this
      omega)]
    rw [if_neg (by omega : ¬ tScan ≤ 0)]
    rw [if_neg (by omega : ¬ tSwitch < 0)]
    rw [if_neg (by omega : ¬ tEB < 0)]
    rw [R11]

/-- C5 witness: a fully valid construction, checked against the nine
conditions of the specification. -/
theorem mkSyncParameters_spec_witness :
    mkSyncParameters [11, 13] 3 (1/2) [(11, 1), (13, 1/2)] 100 0 0 =
      .ok ⟨[11, 13], 3, 1/2, [(11, 1), (13, 1/2)], 100, 0, 0⟩ :=
  (mkSyncParameters_spec [11, 13] 3 (1/2) [(11, 1), (13, 1/2)] 100 0 0
      ⟨[11, 13], 3, 1/2, [(11, 1), (13, 1/2)], 100, 0, 0⟩ (by decide)).mpr
    ⟨by decide, by decide, by decide, by decide, by norm_num,
     by
      intro c hcm
      fin_cases hcm
      · exact ⟨1, rfl, by norm_num⟩
      · exact ⟨1/2, rfl, by norm_num⟩,
     by decide, by decide, by decide, by decide, rfl⟩

end M6SS
